import Mathlib

/-!
Verification of the constraint-engine core of the tametsi solver
(src/core.rs, src/solver.rs, src/app.rs), shallowly embedded in Lean.

Bitsets (`Bits = BitArray<Lsb0, [usize; 7]>` in src/core.rs) are modelled as
`Finset ℕ`: every use of complement in the solver occurs under an
intersection (`a & !b`), which is set difference.  `count_ones` is `card`,
`iter_ones` (ascending) is `iterOnes` (a filter over the fixed 448-bit
capacity, in increasing index order).  Rust `usize` arithmetic
is `ℕ` (`saturating_sub` is `ℕ` subtraction; plain `-` sites are guarded by
asserts that make them equal to `ℕ` subtraction).  `assert!`/`panic!`/
`expect` failures and the unbounded replenish loop of `Solver::step` are
modelled with `Except Fail` and an explicit fuel parameter.
-/

set_option maxRecDepth 100000

namespace Tametsi

/-- `Constraint` from src/solver.rs lines 6-12. -/
structure Constraint where
  bits : Finset ℕ
  min_mines : ℕ
  max_mines : ℕ
  size : ℕ
deriving DecidableEq

/-- `Constraint::is_solved` (src/solver.rs lines 19-21). -/
def Constraint.is_solved (c : Constraint) : Bool :=
  c.max_mines = 0 ∨ c.min_mines = c.size

/-- `Constraint::is_useless` (src/solver.rs lines 23-25). -/
def Constraint.is_useless (c : Constraint) : Bool :=
  c.min_mines = 0 ∧ c.max_mines = c.size

/-- `cross_constraints` (src/solver.rs lines 383-425). -/
def crossConstraints (left right : Constraint) : List Constraint :=
  let intersection := left.bits ∩ right.bits
  let intersectionCount := intersection.card
  let intersectionMin :=
    max ((left.min_mines + intersectionCount) - left.size)
        ((right.min_mines + intersectionCount) - right.size)
  let intersectionMax := min (min intersectionCount left.max_mines) right.max_mines
  let constraints := [Constraint.mk intersection intersectionMin intersectionMax intersection.card]
  let leftOverlap := left.bits \ right.bits
  let constraints :=
    if leftOverlap.Nonempty then
      constraints ++ [Constraint.mk leftOverlap
        (left.min_mines - intersectionMax)
        (min (left.max_mines - intersectionMin) (left.size - intersectionCount))
        leftOverlap.card]
    else constraints
  let rightOverlap := right.bits \ left.bits
  let constraints :=
    if rightOverlap.Nonempty then
      constraints ++ [Constraint.mk rightOverlap
        (right.min_mines - intersectionMax)
        (min (right.max_mines - intersectionMin) (right.size - intersectionCount))
        rightOverlap.card]
    else constraints
  constraints

/-- Failure conditions of the embedded solver: `assert!` failures,
`expect`/`panic!` failures, exhaustion of the fuel bounding the unbounded
`loop` in `Solver::step`, and exhaustion of the recursion bound of
`add_constraint` (whose self-call can recurse at most once, see
`addConstraintGo`). -/
inductive Fail where
  | assertFailed
  | expectFailed
  | outOfFuel
  | recursionLimit
deriving DecidableEq

instance exceptDecEq {ε α : Type} [DecidableEq ε] [DecidableEq α] :
    DecidableEq (Except ε α) := fun x y =>
  match x, y with
  | Except.ok a, Except.ok b =>
      if h : a = b then Decidable.isTrue (by rw [h])
      else Decidable.isFalse (fun hc => h (Except.ok.inj hc))
  | Except.error a, Except.error b =>
      if h : a = b then Decidable.isTrue (by rw [h])
      else Decidable.isFalse (fun hc => h (Except.error.inj hc))
  | Except.ok _, Except.error _ => Decidable.isFalse (fun hc => Except.noConfusion hc)
  | Except.error _, Except.ok _ => Decidable.isFalse (fun hc => Except.noConfusion hc)

/-- `StepResult` (src/solver.rs lines 363-369). -/
inductive StepResult where
  | progress (revealed flagged : Finset ℕ)
  | crossConstraint (c : Constraint)
  | cliqueConstraint (c : Constraint)
  | unexpectedStop (reason : String)
  | finished
deriving DecidableEq

/-- `Puzzle` (src/core.rs lines 6-13). -/
structure Puzzle where
  neighbors : List (Finset ℕ)
  mines : Finset ℕ
  unknowns : Finset ℕ
  revealed : Finset ℕ
  hints : List (Finset ℕ)
deriving DecidableEq

/-- `Puzzle::size` (src/core.rs lines 30-33). -/
def Puzzle.size (p : Puzzle) : ℕ := p.neighbors.length

/-- The `Solver` struct (src/solver.rs lines 57-68) merged with its
`PuzzleState` (lines 28-33); the dead `unsolved_cliques` field (used only by
`find_cliques`, whose call site is commented out) is omitted.  Hash-keyed
collections (`HashMap`/`HashSet`) are modelled as lists in insertion order;
`VecDeque` is a list whose back is the list's end. -/
structure SolverState where
  base : Puzzle
  revealed : Finset ℕ
  flagged : Finset ℕ
  unsolved : List Constraint
  processingStack : List (List (List Constraint))
  squareConstraints : List (List Constraint)
  removed : List Constraint
  solved : List Constraint
  allBits : Finset ℕ
  maxCells : ℕ
  maxMines : ℕ
deriving DecidableEq

/-- `Bits` capacity: `BitArray<Lsb0, [usize; 7]>` holds 7 x 64 = 448 bits
(src/core.rs line 4). -/
def CAPACITY : ℕ := 448

/-- `Bits::iter_ones` (ascending): iterate the set bits in increasing index
order within the fixed 448-bit capacity. -/
def iterOnes (s : Finset ℕ) : List ℕ :=
  (List.range CAPACITY).filter (fun i => decide (i ∈ s))

/-- `HashSet::insert` on a list-modelled set. -/
def insertSet (c : Constraint) (l : List Constraint) : List Constraint :=
  if c ∈ l then l else l ++ [c]

/-- `self.processing_stack[size-1][max_mines - min_mines].push_back(c)`
(src/solver.rs line 209). -/
def pushBucket (c : Constraint) (stack : List (List (List Constraint))) :
    List (List (List Constraint)) :=
  let i := c.size - 1
  let j := c.max_mines - c.min_mines
  let row := stack.getD i []
  stack.set i (row.set j (row.getD j [] ++ [c]))
/-- `Iterator::for` over a list with early exit on failure: the monadic
fold used to model the solver's loops (kernel-reducible). -/
def foldE {σ α : Type} (f : σ → α → Except Fail σ) : σ → List α → Except Fail σ
  | s, [] => Except.ok s
  | s, a :: t =>
    match f s a with
    | Except.ok s1 => foldE f s1 t
    | Except.error e => Except.error e

/-- The final loop of `Solver::remove_constraint` (src/solver.rs lines
227-230): remove `known` from `square_constraints[i]` for every set bit i of
`known.bits`, asserting it was present. -/
def eraseFromCells (known : Constraint) (s : SolverState) : Except Fail SolverState :=
  foldE (fun st i =>
      if known ∈ st.squareConstraints.getD i [] then
        Except.ok { st with squareConstraints :=
          st.squareConstraints.set i ((st.squareConstraints.getD i []).erase known) }
      else Except.error Fail.assertFailed) s (iterOnes known.bits)

/-- `Solver::remove_constraint` (src/solver.rs lines 215-231). -/
def removeConstraint (constraint : Constraint) (s : SolverState) :
    Except Fail SolverState :=
  if constraint.is_solved then
    if constraint ∈ s.solved then
      eraseFromCells constraint { s with solved := s.solved.erase constraint }
    else Except.error Fail.expectFailed
  else
    match s.unsolved.find? (fun k => k.bits == constraint.bits) with
    | some known =>
        eraseFromCells known { s with
          removed := insertSet constraint s.removed,
          unsolved := s.unsolved.filter (fun k => k.bits != constraint.bits) }
    | none => Except.error Fail.expectFailed

/-- The `by_cell` insertion loop of `Solver::add_constraint`
(src/solver.rs line 212). -/
def insertIntoCells (c : Constraint) (s : SolverState) : SolverState :=
  (iterOnes c.bits).foldl (fun st sq =>
    { st with squareConstraints :=
      st.squareConstraints.set sq (insertSet c (st.squareConstraints.getD sq [])) }) s

/-- `Solver::add_constraint` (src/solver.rs lines 178-213), with an explicit
recursion bound.  The recursive call at line 201 happens after
`remove_constraint(known)` removed the key `constraint.bits` from
`unsolved`, so the recursive call's lookup misses and the true recursion
depth is at most one; `addConstraint` below supplies bound 2. -/
def addConstraintGo : ℕ → Constraint → SolverState → Except Fail SolverState
  | 0, _, _ => Except.error Fail.recursionLimit
  | depth + 1, c, s =>
    if (c.bits ∩ s.revealed).Nonempty then Except.error Fail.assertFailed
    else if (c.bits ∩ s.flagged).Nonempty then Except.error Fail.assertFailed
    else if c.size < c.max_mines then Except.error Fail.assertFailed
    else if c.is_useless then Except.ok s
    else
      match s.unsolved.find? (fun k => k.bits == c.bits) with
      | some known =>
          if known.min_mines ≥ c.min_mines ∧ known.max_mines ≤ c.max_mines then
            Except.ok s
          else
            (removeConstraint known s).bind
              (addConstraintGo depth (Constraint.mk c.bits
                (max known.min_mines c.min_mines)
                (min known.max_mines c.max_mines) c.bits.card))
      | none =>
          Except.ok (insertIntoCells c
            (if c.is_solved then { s with solved := insertSet c s.solved }
             else { s with
               unsolved := s.unsolved ++ [c],
               processingStack := pushBucket c s.processingStack }))

/-- `Solver::add_constraint` entry point. -/
def addConstraint (c : Constraint) (s : SolverState) : Except Fail SolverState :=
  addConstraintGo 2 c s

/-- `get_neighbor_constraint` (src/solver.rs lines 371-381). -/
def getNeighborConstraint (s : SolverState) (squareIndex : ℕ) : Constraint :=
  let unknownNeighbors := ((s.base.neighbors.getD squareIndex ∅) \ s.revealed) \ s.flagged
  Constraint.mk unknownNeighbors
    ((unknownNeighbors ∩ s.base.mines).card)
    ((unknownNeighbors ∩ s.base.mines).card)
    unknownNeighbors.card

/-- The shrunken replacement constraint built by `Solver::reveal_square`
(src/solver.rs lines 242-244): drop `square` from the region, decrement the
size, clamp `max_mines` to the new size, keep `min_mines`. -/
def shrinkReveal (square : ℕ) (c : Constraint) : Constraint :=
  Constraint.mk (c.bits.erase square) c.min_mines
    (min c.max_mines (c.size - 1)) (c.size - 1)

/-- The body of the constraint-update loop of `Solver::reveal_square`
(src/solver.rs lines 237-246). -/
def revealConstraintsStep (square : ℕ) (st : SolverState) (c : Constraint) :
    Except Fail SolverState :=
  if c.size = 0 then Except.error Fail.assertFailed
  else if square ∉ c.bits then Except.error Fail.assertFailed
  else (removeConstraint c st).bind (addConstraint (shrinkReveal square c))

/-- `Solver::reveal_square` (src/solver.rs lines 233-253). -/
def revealSquare (square : ℕ) (s : SolverState) : Except Fail SolverState :=
  if square ∈ s.revealed then Except.error Fail.assertFailed
  else if square ∈ s.base.mines then Except.error Fail.assertFailed
  else
    (foldE (revealConstraintsStep square) s (s.squareConstraints.getD square [])).bind
      (fun s1 =>
        let s2 := { s1 with revealed := insert square s1.revealed }
        if square ∉ s2.base.unknowns then
          addConstraint (getNeighborConstraint s2 square) s2
        else Except.ok s2)

/-- The shrunken replacement constraint built by `Solver::flag_square`
(src/solver.rs lines 265-268): drop `square`, decrement size and
`max_mines` (guarded by the `max_mines > 0` assert), saturating-decrement
`min_mines`. -/
def shrinkFlag (square : ℕ) (c : Constraint) : Constraint :=
  Constraint.mk (c.bits.erase square) (c.min_mines - 1) (c.max_mines - 1) (c.size - 1)

/-- The body of the constraint-update loop of `Solver::flag_square`
(src/solver.rs lines 259-269). -/
def flagConstraintsStep (square : ℕ) (st : SolverState) (c : Constraint) :
    Except Fail SolverState :=
  if c.max_mines = 0 then Except.error Fail.assertFailed
  else if c.size = 0 then Except.error Fail.assertFailed
  else if square ∉ c.bits then Except.error Fail.assertFailed
  else (removeConstraint c st).bind (addConstraint (shrinkFlag square c))

/-- `Solver::flag_square` (src/solver.rs lines 255-273). -/
def flagSquare (square : ℕ) (s : SolverState) : Except Fail SolverState :=
  if square ∈ s.flagged then Except.error Fail.assertFailed
  else if square ∉ s.base.mines then Except.error Fail.assertFailed
  else
    (foldE (flagConstraintsStep square) s (s.squareConstraints.getD square [])).map
      (fun s1 => { s1 with flagged := insert square s1.flagged })

/-- `Solver::add_constraint_from_mine_count` (src/solver.rs lines 164-176). -/
def addConstraintFromMineCount (bits : Finset ℕ) (s : SolverState) :
    Except Fail SolverState :=
  let bits := (bits \ s.revealed) \ s.flagged
  let mines := (bits ∩ s.base.mines).card
  addConstraint (Constraint.mk bits mines mines bits.card) s

/-- The size gate of `Solver::add_all_crosses` (src/solver.rs line 281):
a candidate is skipped when `to_cross.max_mines > self.max_mines`
AND `to_cross.size > self.max_cells`. -/
def gateSkips (s : SolverState) (k : Constraint) : Bool :=
  decide (s.maxMines < k.max_mines ∧ s.maxCells < k.size)

/-- The cross-collection loop of `Solver::add_all_crosses`
(src/solver.rs lines 276-294). -/
def collectCrosses (constraint : Constraint) (s : SolverState) : List Constraint :=
  ((iterOnes constraint.bits).foldl (fun (acc : Finset ℕ × List Constraint) square =>
      let crosses := (s.squareConstraints.getD square []).foldl (fun cs toCross =>
          if gateSkips s toCross then cs
          else if (toCross.bits ∩ acc.1).Nonempty ∨ constraint = toCross then cs
          else cs ++ crossConstraints constraint toCross) acc.2
      (insert square acc.1, crosses)) ((∅ : Finset ℕ), ([] : List Constraint))).2

/-- `Solver::add_all_crosses` (src/solver.rs lines 275-299). -/
def addAllCrosses (constraint : Constraint) (s : SolverState) :
    Except Fail SolverState :=
  foldE (fun st c => addConstraint c st) s (collectCrosses constraint s)

/-- `VecDeque::pop_back` scanned over one row of deques: the inner part of
`self.processing_stack.iter_mut().flatten().find_map(|f| f.pop_back())`
(src/solver.rs line 344).  A deque's back is the end of the list. -/
def popRow : List (List Constraint) → Option (Constraint × List (List Constraint))
  | [] => none
  | d :: rest =>
    match d.getLast? with
    | some q => some (q, d.dropLast :: rest)
    | none =>
      match popRow rest with
      | some (q, rest') => some (q, d :: rest')
      | none => none

/-- `self.processing_stack.iter_mut().flatten().find_map(|f| f.pop_back())`
(src/solver.rs line 344): take the last element of the first non-empty
deque in ascending `(size-1, slack)` order. -/
def popNext : List (List (List Constraint)) →
    Option (Constraint × List (List (List Constraint)))
  | [] => none
  | row :: rest =>
    match popRow row with
    | some (q, row') => some (q, row' :: rest)
    | none =>
      match popNext rest with
      | some (q, rest') => some (q, row :: rest')
      | none => none

/-- The replenish arm of `Solver::step`'s loop (src/solver.rs lines 350-357):
re-emit every hint region and every neighbor region as fresh constraints. -/
def replenish (s : SolverState) : Except Fail SolverState :=
  (foldE (fun st h => addConstraintFromMineCount h st) s s.base.hints).bind
    (fun s1 => foldE (fun st nb => addConstraintFromMineCount nb st) s1 s1.base.neighbors)

/-- The partition loop of `Solver::step`'s solved-drain arm
(src/solver.rs lines 310-319). -/
def drainPartition (solved : List Constraint) : Except Fail (Finset ℕ × Finset ℕ) :=
  foldE (fun (acc : Finset ℕ × Finset ℕ) c =>
      if c.size = 0 then Except.error Fail.assertFailed
      else if c.max_mines = 0 then Except.ok (acc.1 ∪ c.bits, acc.2)
      else Except.ok (acc.1, acc.2 ∪ c.bits)) ((∅ : Finset ℕ), (∅ : Finset ℕ)) solved

/-- The solved-drain arm of `Solver::step` (src/solver.rs lines 308-342);
note both asserts at lines 321-322 test `to_flag` (the first against
`revealed`, the second against `flagged`). -/
def drainSolved (s : SolverState) : Except Fail (StepResult × SolverState) :=
  (drainPartition s.solved).bind (fun acc =>
    if (acc.2 ∩ s.revealed).Nonempty then Except.error Fail.assertFailed
    else if (acc.2 ∩ s.flagged).Nonempty then Except.error Fail.assertFailed
    else
      (foldE (fun st sq => revealSquare sq st) s (iterOnes acc.1)).bind (fun s1 =>
        (foldE (fun st sq => flagSquare sq st) s1 (iterOnes acc.2)).bind (fun s2 =>
          if s2.base.size - (s2.revealed ∪ s2.flagged).card = 0 then
            Except.ok (StepResult.finished, s2)
          else Except.ok (StepResult.progress acc.1 acc.2, s2))))

/-- The `loop` of `Solver::step` (src/solver.rs lines 343-359), with fuel:
the Rust loop has no exit other than returning `CrossConstraint`, so a
state in which it never pops a live constraint makes it spin forever, which
the model reports as `Fail.outOfFuel` for every fuel value. -/
def stepLoop : ℕ → SolverState → Except Fail (StepResult × SolverState)
  | 0, _ => Except.error Fail.outOfFuel
  | fuel + 1, s =>
    match popNext s.processingStack with
    | some (next, stack') =>
        if next ∈ s.removed then
          stepLoop fuel { s with processingStack := stack',
                                 removed := s.removed.erase next }
        else
          (addAllCrosses next { s with processingStack := stack' }).map
            (fun s2 => (StepResult.crossConstraint next, s2))
    | none => (replenish s).bind (stepLoop fuel)

/-- `Solver::step` (src/solver.rs lines 301-360); the `find_cliques` arm is
commented out in the source and therefore not modelled. -/
def step (fuel : ℕ) (s : SolverState) : Except Fail (StepResult × SolverState) :=
  if s.solved.isEmpty then stepLoop fuel s else drainSolved s

/-- `Solver::new` (src/solver.rs lines 71-123). -/
def solverNew (base : Puzzle) (maxCells maxMines : ℕ) : Except Fail SolverState :=
  let revealed0 := base.revealed
  let n := base.size
  let s : SolverState := {
    base := base
    revealed := ∅
    flagged := ∅
    unsolved := []
    processingStack := List.replicate n (List.replicate n [])
    squareConstraints := List.replicate n []
    removed := []
    solved := []
    allBits := Finset.range n
    maxCells := maxCells
    maxMines := maxMines }
  let initialConstraints := (base.hints.map (fun hint => hint \ revealed0)).dedup
  (if initialConstraints.length = 0 then addConstraintFromMineCount s.allBits s
   else Except.ok s).bind
    (fun s1 => foldE (fun st square => revealSquare square st) s1 (iterOnes revealed0))

/-- The driver's solver construction, `Solver::new(puzzle, 3, 9)`
(src/app.rs line 43): the positional arguments bind `max_cells = 3`,
`max_mines = 9`. -/
def driverSolver (p : Puzzle) : Except Fail SolverState := solverNew p 3 9

/-- The intersection constraint built by `cross_constraints`
(src/solver.rs lines 386-396), as a standalone value. -/
def interC (left right : Constraint) : Constraint :=
  Constraint.mk (left.bits ∩ right.bits)
    (max ((left.min_mines + (left.bits ∩ right.bits).card) - left.size)
         ((right.min_mines + (left.bits ∩ right.bits).card) - right.size))
    (min (min (left.bits ∩ right.bits).card left.max_mines) right.max_mines)
    ((left.bits ∩ right.bits).card)

/-- The one-sided constraint built by `cross_constraints` for the region
`own.bits \ other.bits` (src/solver.rs lines 399-422), as a standalone value. -/
def sideC (own other : Constraint) : Constraint :=
  Constraint.mk (own.bits \ other.bits)
    (own.min_mines - (interC own other).max_mines)
    (min (own.max_mines - (interC own other).min_mines)
         (own.size - (own.bits ∩ other.bits).card))
    ((own.bits \ other.bits).card)

/-- A two-cell puzzle (cell 1 a mine, both cells `unknown`, no hints) whose
solver stalls: after the single cross step the work queue is empty, the
puzzle is unfinished, and replenishing adds nothing. -/
def stallPuzzle : Puzzle := Puzzle.mk [∅, ∅] {1} {0, 1} ∅ []

/-- The single constraint the stalled solver ever holds. -/
def stallQ : Constraint := Constraint.mk {0, 1} 1 1 2

/-- The solver state `Solver::new(stallPuzzle, 3, 9)` produces. -/
def stallState0 : SolverState :=
  SolverState.mk stallPuzzle ∅ ∅ [stallQ] [[[], []], [[stallQ], []]]
    [[stallQ], [stallQ]] [] [] (Finset.range 2) 3 9

/-- The solver state after the first `step` call on `stallState0`: the
queue is empty, nothing is solved, the puzzle is unfinished. -/
def stallState : SolverState :=
  SolverState.mk stallPuzzle ∅ ∅ [stallQ] [[[], []], [[], []]]
    [[stallQ], [stallQ]] [] [] (Finset.range 2) 3 9

/-- The puzzle with zero cells. -/
def emptyPuzzle : Puzzle := Puzzle.mk [] ∅ ∅ ∅ []

/-- The solver state `Solver::new(emptyPuzzle, 3, 9)` produces. -/
def emptySolverState : SolverState :=
  SolverState.mk emptyPuzzle ∅ ∅ [] [] [] [] [] ∅ 3 9

/-- A four-cell puzzle used to exhibit the pop order of the work queue. -/
def fifoPuzzle : Puzzle := Puzzle.mk [∅, ∅, ∅, ∅] {0, 2} ∅ ∅ []

/-- An empty solver state over `fifoPuzzle`. -/
def fifoState0 : SolverState :=
  SolverState.mk fifoPuzzle ∅ ∅ [] (List.replicate 4 (List.replicate 4 []))
    (List.replicate 4 []) [] [] (Finset.range 4) 3 9

/-- First constraint enqueued into bucket `(size-1, slack) = (1, 0)`. -/
def fifoQ1 : Constraint := Constraint.mk {0, 1} 1 1 2

/-- Second constraint enqueued into the same bucket `(1, 0)`. -/
def fifoQ2 : Constraint := Constraint.mk {2, 3} 1 1 2

/-- A one-cell puzzle for inspecting the driver-constructed solver. -/
def gatePuzzle : Puzzle := Puzzle.mk [∅] ∅ ∅ ∅ []

/-- A candidate constraint with `max_mines = 4` and `size = 10`: the spec's
caps (`max_mines_cap = 3`, `max_cells_cap = 9`) would gate it out. -/
def gateKBig : Constraint := Constraint.mk ∅ 0 4 10

/-- A candidate constraint with `max_mines = 10` and `size = 4`: the spec's
caps would keep it, but the code's gate skips it. -/
def gateKWide : Constraint := Constraint.mk ∅ 0 10 4

/-- A two-cell puzzle with no mines, used for the same-region
canonicalization scenario (spec scenario S6). -/
def incPuzzle : Puzzle := Puzzle.mk [∅, ∅] ∅ ∅ ∅ []

/-- An empty solver state over `incPuzzle`. -/
def incState0 : SolverState :=
  SolverState.mk incPuzzle ∅ ∅ [] (List.replicate 2 (List.replicate 2 []))
    (List.replicate 2 []) [] [] (Finset.range 2) 3 9

/-- The exact constraint min=1/max=1 on region {0,1}. -/
def incC1 : Constraint := Constraint.mk {0, 1} 1 1 2

/-- The exact constraint min=0/max=0 on the same region {0,1}. -/
def incC2 : Constraint := Constraint.mk {0, 1} 0 0 2

/-- The contradictory tightened constraint min=1/max=0 on {0,1}. -/
def incTight : Constraint := Constraint.mk {0, 1} 1 0 2

/-- The state after `addConstraint incC1 incState0`. -/
def incState1 : SolverState :=
  SolverState.mk incPuzzle ∅ ∅ [incC1] [[[], []], [[incC1], []]]
    [[incC1], [incC1]] [] [] (Finset.range 2) 3 9

/-- The state after `addConstraint incC2 incState1`: the contradictory
`incTight` sits in the solved set and the add reported no failure. -/
def incState2 : SolverState :=
  SolverState.mk incPuzzle ∅ ∅ [] [[[], []], [[incC1], []]]
    [[incTight], [incTight]] [incC1] [incTight] (Finset.range 2) 3 9

/-- The puzzle-facing part of a solver state: the immutable base puzzle and
the mutable revealed/flagged masks. -/
def stateCore (s : SolverState) : Puzzle × Finset ℕ × Finset ℕ :=
  (s.base, s.revealed, s.flagged)

/-- The puzzle-state invariant of C7: revealed and flagged are disjoint,
every flagged cell is a mine, and no revealed cell is a mine. -/
def PuzzleInv (s : SolverState) : Prop :=
  s.revealed ∩ s.flagged = ∅ ∧ s.flagged ⊆ s.base.mines ∧
    s.revealed ∩ s.base.mines = ∅

instance puzzleInvDecidable (s : SolverState) : Decidable (PuzzleInv s) := by
  unfold PuzzleInv
  infer_instance

/-- One step's effect on the puzzle state: the invariant is preserved and
both masks only grow. -/
def StepPreserves (s s' : SolverState) : Prop :=
  (PuzzleInv s → PuzzleInv s') ∧ s.revealed ⊆ s'.revealed ∧ s.flagged ⊆ s'.flagged

/-- C5's description of `Solver::reveal_square` (spec
sections 4.6 and 4.8), written as its own definition to compare against the
source-translated `revealSquare`: every stored constraint q whose region
contains the cell is replaced — through the store's remove and add — by q'
with `bits = q.bits minus the cell`, `size = q.size - 1`,
`max = min(q.max, q'.size)` and the same `min`; then `revealed[cell]` is
set; then, exactly when the cell is not in `puzzle.unknowns`, the exact
constraint over `region = neighbors[cell] minus revealed minus flagged`
with `min = max = popcount(region & mines)` is added. -/
def revealSpec (square : ℕ) (s : SolverState) : Except Fail SolverState :=
  (foldE (fun st q =>
      (removeConstraint q st).bind
        (addConstraint (Constraint.mk (q.bits \ {square}) q.min_mines
          (min q.max_mines (q.size - 1)) (q.size - 1))))
    s (s.squareConstraints.getD square [])).bind
    (fun s1 =>
      let s2 := { s1 with revealed := insert square s1.revealed }
      if square ∉ s2.base.unknowns then
        addConstraint (Constraint.mk
          (((s2.base.neighbors.getD square ∅) \ s2.revealed) \ s2.flagged)
          (((((s2.base.neighbors.getD square ∅) \ s2.revealed) \ s2.flagged) ∩ s2.base.mines).card)
          (((((s2.base.neighbors.getD square ∅) \ s2.revealed) \ s2.flagged) ∩ s2.base.mines).card)
          ((((s2.base.neighbors.getD square ∅) \ s2.revealed) \ s2.flagged).card)) s2
      else Except.ok s2)

/-- A two-cell puzzle (cell 1 a mine adjacent to cell 0) for the reveal
scenario. -/
def revPuzzle : Puzzle := Puzzle.mk [{1}, ∅] {1} ∅ ∅ []

/-- The constraint on {0,1} stored while cell 0 is revealed. -/
def revQ : Constraint := Constraint.mk {0, 1} 1 1 2

/-- A solver state over `revPuzzle` holding `revQ`. -/
def revState : SolverState :=
  SolverState.mk revPuzzle ∅ ∅ [revQ] [[[], []], [[revQ], []]]
    [[revQ], [revQ]] [] [] (Finset.range 2) 3 9

/-- A one-cell no-mine puzzle whose solver state drains one solved
constraint to Finished. -/
def drainPuzzle : Puzzle := Puzzle.mk [∅] ∅ {0} ∅ []

/-- The solved constraint over {0}. -/
def drainQ : Constraint := Constraint.mk {0} 0 0 1

/-- A solver state over `drainPuzzle` with `drainQ` solved. -/
def drainState : SolverState :=
  SolverState.mk drainPuzzle ∅ ∅ [] [[[]]] [[drainQ]] [] [drainQ] {0} 3 9

/-- The state after draining `drainState`: cell 0 revealed, store empty. -/
def drainStateAfter : SolverState :=
  SolverState.mk drainPuzzle {0} ∅ [] [[[]]] [[]] [] [] {0} 3 9

lemma interC_comm (L R : Constraint) : interC R L = interC L R := by
  simp only [interC, Finset.inter_comm R.bits L.bits]
  congr 1
  · exact max_comm _ _
  · rw [min_assoc, min_assoc, min_comm R.max_mines]

lemma crossConstraints_eq (L R : Constraint) :
    crossConstraints L R =
      interC L R ::
        ((if (L.bits \ R.bits).Nonempty then [sideC L R] else []) ++
         (if (R.bits \ L.bits).Nonempty then [sideC R L] else [])) := by
  have h : interC R L = interC L R := interC_comm L R
  by_cases hl : (L.bits \ R.bits).Nonempty <;>
    by_cases hr : (R.bits \ L.bits).Nonempty <;>
      simp [crossConstraints, interC, sideC, hl, hr, Finset.inter_comm R.bits L.bits,
        min_assoc, min_comm, min_left_comm, max_comm]

/-- C1: for any two constraints L and R, `cross_constraints` returns the
intersection constraint on `I = L.bits ∩ R.bits` with
`min = max (L.min + c − L.size) (R.min + c − R.size) 0` (ℕ subtraction is
saturating) and `max = min c (min L.max R.max)` where `c = card I`, followed
by a left-only constraint on `L \ R` exactly when that region is non-empty,
with `min = max (L.min − I.max) 0` and `max = min (L.max − I.min) (L.size − c)`,
and symmetrically a right-only constraint exactly when `R \ L` is non-empty. -/
theorem cross_constraints_spec (left right : Constraint) :
    crossConstraints left right =
      (let inter := left.bits ∩ right.bits
       let c := inter.card
       let imin := max (max ((left.min_mines + c) - left.size)
                            ((right.min_mines + c) - right.size)) 0
       let imax := min c (min left.max_mines right.max_mines)
       [Constraint.mk inter imin imax c]
       ++ (if (left.bits \ right.bits).Nonempty then
            [Constraint.mk (left.bits \ right.bits)
              (max (left.min_mines - imax) 0)
              (min (left.max_mines - imin) (left.size - c))
              ((left.bits \ right.bits).card)]
           else [])
       ++ (if (right.bits \ left.bits).Nonempty then
            [Constraint.mk (right.bits \ left.bits)
              (max (right.min_mines - imax) 0)
              (min (right.max_mines - imin) (right.size - c))
              ((right.bits \ left.bits).card)]
           else [])) := by
  simp only [crossConstraints, Nat.max_zero, min_assoc]
  by_cases hl : (left.bits \ right.bits).Nonempty <;>
    by_cases hr : (right.bits \ left.bits).Nonempty <;>
      simp [hl, hr]

/-- C8: crossing is commutative: `cross_constraints L R` and
`cross_constraints R L` produce the same constraints up to ordering; the
intersection constraints (the heads of the two lists) are equal, and the
left-only output of one call equals the right-only output of the other. -/
theorem cross_constraints_comm (L R : Constraint) :
    (crossConstraints L R).head? = (crossConstraints R L).head? ∧
    (crossConstraints L R).Perm (crossConstraints R L) := by
  rw [crossConstraints_eq L R, crossConstraints_eq R L, interC_comm L R]
  exact ⟨rfl, List.Perm.cons _ List.perm_append_comm⟩

lemma card_inter_split (M s t : Finset ℕ) :
    (M ∩ s).card = (M ∩ (s ∩ t)).card + (M ∩ (s \ t)).card := by
  have hsplit : M ∩ s = (M ∩ (s ∩ t)) ∪ (M ∩ (s \ t)) := by
    rw [← Finset.inter_union_distrib_left]
    congr 1
    exact ((Finset.union_comm _ _).trans (Finset.sdiff_union_inter s t)).symm
  have hdisj : Disjoint (M ∩ (s ∩ t)) (M ∩ (s \ t)) :=
    ((Finset.disjoint_sdiff_inter s t).symm).mono
      Finset.inter_subset_right Finset.inter_subset_right
  rw [hsplit, Finset.card_union_of_disjoint hdisj]

lemma interC_sound (L R : Constraint) (M : Finset ℕ)
    (hL3 : L.size = L.bits.card) (hR3 : R.size = R.bits.card)
    (hML1 : L.min_mines ≤ (M ∩ L.bits).card) (hML2 : (M ∩ L.bits).card ≤ L.max_mines)
    (hMR1 : R.min_mines ≤ (M ∩ R.bits).card) (hMR2 : (M ∩ R.bits).card ≤ R.max_mines) :
    (interC L R).min_mines ≤ (M ∩ (interC L R).bits).card ∧
      (M ∩ (interC L R).bits).card ≤ (interC L R).max_mines := by
  have fL := card_inter_split M L.bits R.bits
  have fR := card_inter_split M R.bits L.bits
  rw [Finset.inter_comm R.bits L.bits] at fR
  have gL := Finset.card_inter_add_card_sdiff L.bits R.bits
  have gR := Finset.card_inter_add_card_sdiff R.bits L.bits
  rw [Finset.inter_comm R.bits L.bits] at gR
  have hb : (M ∩ (L.bits \ R.bits)).card ≤ (L.bits \ R.bits).card :=
    Finset.card_le_card Finset.inter_subset_right
  have hg : (M ∩ (R.bits \ L.bits)).card ≤ (R.bits \ L.bits).card :=
    Finset.card_le_card Finset.inter_subset_right
  have ha : (M ∩ (L.bits ∩ R.bits)).card ≤ (L.bits ∩ R.bits).card :=
    Finset.card_le_card Finset.inter_subset_right
  simp only [interC]
  constructor
  · apply max_le <;> omega
  · apply le_min
    · apply le_min <;> omega
    · omega

lemma sideC_sound (L R : Constraint) (M : Finset ℕ)
    (hL3 : L.size = L.bits.card) (hR3 : R.size = R.bits.card)
    (hML1 : L.min_mines ≤ (M ∩ L.bits).card) (hML2 : (M ∩ L.bits).card ≤ L.max_mines)
    (hMR1 : R.min_mines ≤ (M ∩ R.bits).card) (hMR2 : (M ∩ R.bits).card ≤ R.max_mines) :
    (sideC L R).min_mines ≤ (M ∩ (sideC L R).bits).card ∧
      (M ∩ (sideC L R).bits).card ≤ (sideC L R).max_mines := by
  have fL := card_inter_split M L.bits R.bits
  have fR := card_inter_split M R.bits L.bits
  rw [Finset.inter_comm R.bits L.bits] at fR
  have gL := Finset.card_inter_add_card_sdiff L.bits R.bits
  have gR := Finset.card_inter_add_card_sdiff R.bits L.bits
  rw [Finset.inter_comm R.bits L.bits] at gR
  have hb : (M ∩ (L.bits \ R.bits)).card ≤ (L.bits \ R.bits).card :=
    Finset.card_le_card Finset.inter_subset_right
  have hg : (M ∩ (R.bits \ L.bits)).card ≤ (R.bits \ L.bits).card :=
    Finset.card_le_card Finset.inter_subset_right
  have ha : (M ∩ (L.bits ∩ R.bits)).card ≤ (L.bits ∩ R.bits).card :=
    Finset.card_le_card Finset.inter_subset_right
  have hq : (M ∩ (L.bits ∩ R.bits)).card ≤
      min (min (L.bits ∩ R.bits).card L.max_mines) R.max_mines :=
    le_min (le_min ha (by omega)) (by omega)
  have hp : max ((L.min_mines + (L.bits ∩ R.bits).card) - L.size)
      ((R.min_mines + (L.bits ∩ R.bits).card) - R.size) ≤
        (M ∩ (L.bits ∩ R.bits)).card :=
    max_le (by omega) (by omega)
  simp only [sideC, interC]
  constructor
  · omega
  · apply le_min
    · omega
    · omega

/-- C10: `cross_constraints` is sound.  For constraints L and R whose fields
satisfy `min ≤ max ≤ size = card bits`, and any mine set M satisfying both
input constraints, every output constraint d of `crossConstraints L R`
satisfies `d.min_mines ≤ card (M ∩ d.bits) ≤ d.max_mines`. -/
theorem cross_constraints_sound (L R : Constraint) (M : Finset ℕ)
    (hL1 : L.min_mines ≤ L.max_mines) (hL2 : L.max_mines ≤ L.size)
    (hL3 : L.size = L.bits.card)
    (hR1 : R.min_mines ≤ R.max_mines) (hR2 : R.max_mines ≤ R.size)
    (hR3 : R.size = R.bits.card)
    (hML1 : L.min_mines ≤ (M ∩ L.bits).card) (hML2 : (M ∩ L.bits).card ≤ L.max_mines)
    (hMR1 : R.min_mines ≤ (M ∩ R.bits).card) (hMR2 : (M ∩ R.bits).card ≤ R.max_mines) :
    ∀ d ∈ crossConstraints L R,
      d.min_mines ≤ (M ∩ d.bits).card ∧ (M ∩ d.bits).card ≤ d.max_mines := by
  intro d hd
  rw [crossConstraints_eq] at hd
  simp only [List.mem_cons, List.mem_append] at hd
  rcases hd with hd | hd | hd
  · subst hd
    exact interC_sound L R M hL3 hR3 hML1 hML2 hMR1 hMR2
  · by_cases hl : (L.bits \ R.bits).Nonempty
    · simp only [hl, if_true, List.mem_singleton] at hd
      subst hd
      exact sideC_sound L R M hL3 hR3 hML1 hML2 hMR1 hMR2
    · simp [hl] at hd
  · by_cases hr : (R.bits \ L.bits).Nonempty
    · simp only [hr, if_true, List.mem_singleton] at hd
      subst hd
      exact sideC_sound R L M hR3 hL3 hMR1 hMR2 hML1 hML2
    · simp [hr] at hd

/-- Witness for `cross_constraints_sound`: concrete constraints
L = ({0,1}, 1, 1, 2), R = ({1,2}, 1, 1, 2) and mine set M = {0, 2}; the
head output (the intersection constraint on {1}) satisfies its bounds. -/
theorem cross_constraints_sound_witness :
    (interC (Constraint.mk ({0, 1} : Finset ℕ) 1 1 2) (Constraint.mk ({1, 2} : Finset ℕ) 1 1 2)).min_mines ≤
      (({0, 2} : Finset ℕ) ∩ (interC (Constraint.mk ({0, 1} : Finset ℕ) 1 1 2) (Constraint.mk ({1, 2} : Finset ℕ) 1 1 2)).bits).card ∧
    (({0, 2} : Finset ℕ) ∩ (interC (Constraint.mk ({0, 1} : Finset ℕ) 1 1 2) (Constraint.mk ({1, 2} : Finset ℕ) 1 1 2)).bits).card ≤
      (interC (Constraint.mk ({0, 1} : Finset ℕ) 1 1 2) (Constraint.mk ({1, 2} : Finset ℕ) 1 1 2)).max_mines :=
  cross_constraints_sound
    (Constraint.mk ({0, 1} : Finset ℕ) 1 1 2) (Constraint.mk ({1, 2} : Finset ℕ) 1 1 2)
    ({0, 2} : Finset ℕ)
    (by decide) (by decide) (by decide) (by decide) (by decide) (by decide)
    (by decide) (by decide) (by decide) (by decide)
    (interC (Constraint.mk ({0, 1} : Finset ℕ) 1 1 2) (Constraint.mk ({1, 2} : Finset ℕ) 1 1 2))
    (by rw [crossConstraints_eq]; exact List.mem_cons_self _ _)

lemma stepLoop_stall (n : ℕ) : stepLoop (n + 1) stallState = stepLoop n stallState := by
  have hpop : popNext stallState.processingStack = none := by decide
  have hrep : replenish stallState = Except.ok stallState := by decide
  simp only [stepLoop, hpop, hrep]
  rfl

/-- C2: the claim says that with an empty queue, an unfinished puzzle, and an
ineffective replenish, `Solver::step` terminates with
`UnexpectedStop("no more constraints")`.  The code has no such return: its
`loop` keeps replenishing and never exits.  At the concrete reachable state
`stallState` (driver-built solver on `stallPuzzle` after one step), the
queue is empty, the puzzle is unfinished, replenish is a no-op, and `step`
fails to return for every fuel bound, instead of producing any
`StepResult`. -/
theorem step_stall_diverges :
    driverSolver stallPuzzle = Except.ok stallState0 ∧
    step 1 stallState0 = Except.ok (StepResult.crossConstraint stallQ, stallState) ∧
    stallState.base.size - (stallState.revealed ∪ stallState.flagged).card ≠ 0 ∧
    replenish stallState = Except.ok stallState ∧
    ∀ fuel, step fuel stallState = Except.error Fail.outOfFuel := by
  refine ⟨by decide, by decide, by decide, by decide, ?_⟩
  intro fuel
  induction fuel with
  | zero => rfl
  | succ n ih =>
      have h : step (n + 1) stallState = stepLoop (n + 1) stallState := rfl
      rw [h, stepLoop_stall]
      exact ih

lemma stepLoop_empty_state (n : ℕ) :
    stepLoop (n + 1) emptySolverState = stepLoop n emptySolverState := by
  have hpop : popNext emptySolverState.processingStack = none := by decide
  have hrep : replenish emptySolverState = Except.ok emptySolverState := by decide
  simp only [stepLoop, hpop, hrep]
  rfl

/-- C9: the claim says a puzzle with `N == 0` (empty neighbors list) makes
the first `Solver::step` return `Finished`.  In the code, such a solver has
an empty solved set and an empty work queue, so `step` enters its `loop`,
replenishes nothing, and never returns: for every fuel bound the model runs
out of fuel instead of returning `Finished`. -/
theorem empty_puzzle_step_diverges :
    solverNew emptyPuzzle 3 9 = Except.ok emptySolverState ∧
    ∀ fuel, step fuel emptySolverState = Except.error Fail.outOfFuel := by
  refine ⟨by decide, ?_⟩
  intro fuel
  induction fuel with
  | zero => rfl
  | succ n ih =>
      have h : step (n + 1) emptySolverState = stepLoop (n + 1) emptySolverState := rfl
      rw [h, stepLoop_empty_state]
      exact ih

/-- C3 counterexample: enqueue `fifoQ1` then `fifoQ2` into the same
`(size, slack)` bucket; `Solver::step` processes `fifoQ2` — the most
recently enqueued constraint — first, so the bucket is LIFO, not FIFO as
claimed. -/
theorem step_pops_lifo_not_fifo :
    ((addConstraint fifoQ1 fifoState0).bind (fun s => addConstraint fifoQ2 s)).bind
        (fun s => (step 1 s).map (fun rs => rs.1)) =
      Except.ok (StepResult.crossConstraint fifoQ2) ∧
    fifoQ1 ≠ fifoQ2 ∧
    fifoQ1.size = fifoQ2.size ∧
    fifoQ1.max_mines - fifoQ1.min_mines = fifoQ2.max_mines - fifoQ2.min_mines := by
  decide

lemma popRow_empty (row : List (List Constraint))
    (h : ∀ d ∈ row, d = ([] : List Constraint)) : popRow row = none := by
  induction row with
  | nil => rfl
  | cons d rest ih =>
      have hd : d = [] := h d (List.mem_cons_self d rest)
      subst hd
      have hrest : popRow rest = none := ih (fun d hd => h d (List.mem_cons_of_mem _ hd))
      simp [popRow, hrest]

lemma popRow_last (row₁ row₂ : List (List Constraint)) (d : List Constraint)
    (q : Constraint) (h : ∀ dq ∈ row₁, dq = ([] : List Constraint)) :
    popRow (row₁ ++ (d ++ [q]) :: row₂) = some (q, row₁ ++ d :: row₂) := by
  induction row₁ with
  | nil => simp [popRow]
  | cons e t ih =>
      have he : e = [] := h e (List.mem_cons_self _ _)
      subst he
      have ht := ih (fun dq hdq => h dq (List.mem_cons_of_mem _ hdq))
      simp [popRow, ht]

/-- C3 amended: `Solver::step` pops in ascending `(size, slack)` order —
whenever every deque in rows before the current one (smaller size), and
every deque before the current one within its row (smaller slack), is
empty, the pop takes from the first non-empty bucket — but within that
bucket it takes the LAST enqueued constraint (`push_back`/`pop_back` make
each deque a LIFO stack), not the first. -/
theorem popNext_ascending_lifo (rows₁ rows₂ : List (List (List Constraint)))
    (row₁ row₂ : List (List Constraint)) (d : List Constraint) (q : Constraint)
    (h₁ : ∀ r ∈ rows₁, ∀ dq ∈ r, dq = ([] : List Constraint))
    (h₂ : ∀ dq ∈ row₁, dq = ([] : List Constraint)) :
    popNext (rows₁ ++ (row₁ ++ (d ++ [q]) :: row₂) :: rows₂) =
      some (q, rows₁ ++ (row₁ ++ d :: row₂) :: rows₂) := by
  induction rows₁ with
  | nil => simp [popNext, popRow_last row₁ row₂ d q h₂]
  | cons r rest ih =>
      have hr : popRow r = none := popRow_empty r (h₁ r (List.mem_cons_self _ _))
      have ht := ih (fun r' hr' => h₁ r' (List.mem_cons_of_mem _ hr'))
      simp [popNext, hr, ht]

/-- Witness for `popNext_ascending_lifo` at a concrete stack: one earlier
all-empty row, one earlier empty deque, bucket `[fifoQ1, fifoQ2]`. -/
theorem popNext_ascending_lifo_witness :
    popNext ([[[]]] ++ ([[]] ++ ([fifoQ1] ++ [fifoQ2]) :: []) :: []) =
      some (fifoQ2, [[[]]] ++ ([[]] ++ [fifoQ1] :: []) :: []) :=
  popNext_ascending_lifo [[[]]] [] [[]] [] [fifoQ1] fifoQ2 (by decide) (by decide)

/-- C6: in the driver-constructed solver (`Solver::new(puzzle, 3, 9)`,
src/app.rs line 43) the positional arguments bind `max_cells = 3` and
`max_mines = 9` — the opposite of the claimed caps `max_mines_cap = 3`,
`max_cells_cap = 9`.  Consequently a candidate with `max_mines = 4`,
`size = 10` (which the claim says is skipped, since 4 > 3 and 10 > 9) is
NOT skipped by the code, while a candidate with `max_mines = 10`,
`size = 4` (which the claim says is kept) IS skipped. -/
theorem size_gate_caps_swapped :
    (driverSolver gatePuzzle).map (fun s =>
        (s.maxCells, s.maxMines, gateSkips s gateKBig, gateSkips s gateKWide)) =
      Except.ok (3, 9, false, true) ∧
    (3 < gateKBig.max_mines ∧ 9 < gateKBig.size) ∧
    ¬ (3 < gateKWide.max_mines ∧ 9 < gateKWide.size) := by
  decide

lemma foldE_ok_induct {σ α : Type} (f : σ → α → Except Fail σ)
    (P : σ → σ → Prop)
    (hrefl : ∀ s, P s s)
    (htrans : ∀ a b c, P a b → P b c → P a c)
    (hf : ∀ st a st', f st a = Except.ok st' → P st st') :
    ∀ (l : List α) (s s' : σ), foldE f s l = Except.ok s' → P s s' := by
  intro l
  induction l with
  | nil =>
      intro s s' h
      cases h
      exact hrefl s
  | cons a t ih =>
      intro s s' h
      rw [foldE] at h
      cases hfa : f s a with
      | error e =>
          rw [hfa] at h
          exact Except.noConfusion h
      | ok s1 =>
          rw [hfa] at h
          exact htrans _ _ _ (hf s a s1 hfa) (ih s1 s' h)

lemma eraseFromCells_unsolved (k : Constraint) (s s' : SolverState)
    (h : eraseFromCells k s = Except.ok s') : s'.unsolved = s.unsolved := by
  refine foldE_ok_induct _ (fun a b => b.unsolved = a.unsolved) (fun _ => rfl)
    ?_ ?_ _ s s' h
  · intro a b c h1 h2
    exact h2.trans h1
  · intro st a st' hst
    by_cases hmem : k ∈ st.squareConstraints.getD a []
    · simp only [if_pos hmem] at hst
      cases hst
      rfl
    · simp only [if_neg hmem] at hst
      exact Except.noConfusion hst

lemma removeConstraint_unsolved_of_not_solved (k : Constraint) (s s' : SolverState)
    (hks : k.is_solved = false) (h : removeConstraint k s = Except.ok s') :
    s'.unsolved = s.unsolved.filter (fun c => c.bits != k.bits) := by
  unfold removeConstraint at h
  rw [hks] at h
  simp only [Bool.false_eq_true, if_false] at h
  cases hf : s.unsolved.find? (fun c => c.bits == k.bits) with
  | none => rw [hf] at h; exact Except.noConfusion h
  | some known =>
      rw [hf] at h
      exact eraseFromCells_unsolved known _ s' h

lemma addConstraintGo_succ_congr (n m : ℕ) (c : Constraint) (s : SolverState)
    (h : s.unsolved.find? (fun k => k.bits == c.bits) = none) :
    addConstraintGo (n + 1) c s = addConstraintGo (m + 1) c s := by
  simp only [addConstraintGo, h]

/-- C4 amended: when constraint c is added over a region already stored as
unsolved constraint `known`: if `known.min ≥ c.min` and `known.max ≤ c.max`
the add changes nothing; otherwise `known` is removed and the tightened
constraint with `min = max(known.min, c.min)`, `max = min(known.max, c.max)`
is re-added through `add_constraint`.  No inconsistency check exists: if the
tightened interval has `min > max` the add still succeeds silently (see the
counterexample `inconsistent_add_succeeds`); the solver does not stop and
no `UnexpectedStop` is produced. -/
theorem add_constraint_canonicalizes (s : SolverState) (c known : Constraint)
    (h1 : c.bits ∩ s.revealed = ∅) (h2 : c.bits ∩ s.flagged = ∅)
    (h3 : c.max_mines ≤ c.size)
    (hk : s.unsolved.find? (fun k => k.bits == c.bits) = some known)
    (hks : known.is_solved = false) :
    (known.min_mines ≥ c.min_mines ∧ known.max_mines ≤ c.max_mines →
      addConstraint c s = Except.ok s) ∧
    (¬ (known.min_mines ≥ c.min_mines ∧ known.max_mines ≤ c.max_mines) →
      c.is_useless = false →
      addConstraint c s = (removeConstraint known s).bind
        (fun s1 => addConstraint (Constraint.mk c.bits
          (max known.min_mines c.min_mines)
          (min known.max_mines c.max_mines) c.bits.card) s1)) := by
  have h1' : ¬ (c.bits ∩ s.revealed).Nonempty := by
    rw [h1]; exact Finset.not_nonempty_empty
  have h2' : ¬ (c.bits ∩ s.flagged).Nonempty := by
    rw [h2]; exact Finset.not_nonempty_empty
  have h3' : ¬ c.size < c.max_mines := not_lt.mpr h3
  constructor
  · intro hw
    by_cases hu : c.is_useless
    · simp [addConstraint, addConstraintGo, if_neg h1', if_neg h2', if_neg h3', hu]
    · have hu' : c.is_useless = false := by
        simpa using hu
      simp [addConstraint, addConstraintGo, if_neg h1', if_neg h2', if_neg h3', hu', hk, hw]
  · intro hw hu
    have hbits : known.bits = c.bits := by
      have hfind := List.find?_some hk
      simpa using hfind
    show addConstraintGo 2 c s = _
    rw [addConstraintGo]
    simp only [if_neg h1', if_neg h2', if_neg h3', hu,
      Bool.false_eq_true, if_false, hk, if_neg hw]
    cases hr : removeConstraint known s with
    | error e => rfl
    | ok s1 =>
        have hu1 : s1.unsolved = s.unsolved.filter (fun k => k.bits != known.bits) :=
          removeConstraint_unsolved_of_not_solved known s s1 hks hr
        have hnone : s1.unsolved.find? (fun k => k.bits == c.bits) = none := by
          rw [hu1]
          apply List.find?_eq_none.mpr
          intro x hx
          rw [List.mem_filter] at hx
          have hxne : x.bits ≠ known.bits := by simpa using hx.2
          simp [hbits ▸ hxne]
        show addConstraintGo 1 _ s1 = addConstraintGo 2 _ s1
        exact addConstraintGo_succ_congr 0 1 _ s1 hnone

/-- Witness for `add_constraint_canonicalizes`: adding min=0/max=0 on
region {0,1} when min=1/max=1 is stored routes through remove-and-tighten. -/
theorem add_constraint_canonicalizes_witness :
    addConstraint incC2 incState1 = (removeConstraint incC1 incState1).bind
      (fun s1 => addConstraint (Constraint.mk incC2.bits
        (max incC1.min_mines incC2.min_mines)
        (min incC1.max_mines incC2.max_mines) incC2.bits.card) s1) :=
  (add_constraint_canonicalizes incState1 incC2 incC1 (by decide) (by decide)
    (by decide) (by decide) (by decide)).2 (by decide) (by decide)

/-- C4 counterexample: spec scenario S6 injects min=1/max=1 then min=0/max=0
on the same region {0,1} and expects the second add to produce an
`UnexpectedStop`.  In the code both adds succeed: the second quietly places
the contradictory tightened constraint min=1/max=0 in the solved set. -/
theorem inconsistent_add_succeeds :
    addConstraint incC1 incState0 = Except.ok incState1 ∧
    addConstraint incC2 incState1 = Except.ok incState2 ∧
    incTight ∈ incState2.solved ∧ incTight.max_mines < incTight.min_mines := by
  decide

lemma except_bind_ok {σ τ : Type} (x : Except Fail σ) (f : σ → Except Fail τ) (b : τ)
    (h : x.bind f = Except.ok b) : ∃ a, x = Except.ok a ∧ f a = Except.ok b := by
  cases x with
  | error e => exact absurd h (by simp [Except.bind])
  | ok a => exact ⟨a, rfl, h⟩

lemma except_map_ok {σ τ : Type} (x : Except Fail σ) (f : σ → τ) (b : τ)
    (h : x.map f = Except.ok b) : ∃ a, x = Except.ok a ∧ f a = b := by
  cases x with
  | error e => exact absurd h (by simp [Except.map])
  | ok a =>
      simp only [Except.map, Except.ok.injEq] at h
      exact ⟨a, rfl, h⟩

lemma foldE_congr {σ α : Type} (f g : σ → α → Except Fail σ) (l : List α)
    (h : ∀ a ∈ l, ∀ st, f st a = g st a) :
    ∀ s, foldE f s l = foldE g s l := by
  induction l with
  | nil => intro s; rfl
  | cons a t ih =>
      intro s
      rw [foldE, foldE, h a (List.mem_cons_self a t)]
      cases hg : g s a with
      | error e => rfl
      | ok s1 => exact ih (fun b hb st => h b (List.mem_cons_of_mem a hb) st) s1

/-- C5: under the claim's preconditions (the cell is not yet revealed and is
not a mine) and for a well-formed by-cell index (every stored constraint in
the cell's bucket contains the cell and has positive size),
`Solver::reveal_square` does exactly what the claim describes (`revealSpec`):
it replaces each snapshotted constraint q by q' with
`bits = q.bits \ {cell}`, `size = q.size − 1`, `max = min(q.max, q'.size)`,
same `min`; sets `revealed[cell]`; and, exactly when the cell is not an
unknown, adds the exact neighbor constraint over
`neighbors[cell] & ¬revealed & ¬flagged` with
`min = max = popcount(region & mines)`. -/
theorem reveal_square_spec (square : ℕ) (s : SolverState)
    (h1 : square ∉ s.revealed) (h2 : square ∉ s.base.mines)
    (hsnap : ∀ q ∈ s.squareConstraints.getD square [],
      square ∈ q.bits ∧ q.size ≠ 0) :
    revealSquare square s = revealSpec square s := by
  unfold revealSquare revealSpec
  rw [if_neg h1, if_neg h2]
  have hfold : foldE (revealConstraintsStep square) s (s.squareConstraints.getD square []) =
      foldE (fun st q =>
        (removeConstraint q st).bind
          (addConstraint (Constraint.mk (q.bits \ {square}) q.min_mines
            (min q.max_mines (q.size - 1)) (q.size - 1))))
        s (s.squareConstraints.getD square []) := by
    apply foldE_congr
    intro q hq st
    obtain ⟨hqmem, hqsize⟩ := hsnap q hq
    unfold revealConstraintsStep
    rw [if_neg hqsize, if_neg (by simpa using hqmem)]
    have hbits : (shrinkReveal square q).bits = q.bits \ {square} := by
      simp [shrinkReveal, Finset.erase_eq]
    simp [shrinkReveal, Finset.erase_eq]
  rw [hfold]
  rfl

/-- Witness for `reveal_square_spec` on the concrete state `revState`. -/
theorem reveal_square_spec_witness :
    revealSquare 0 revState = revealSpec 0 revState :=
  reveal_square_spec 0 revState (by decide) (by decide) (by decide)

lemma core_foldE {α : Type} (f : SolverState → α → Except Fail SolverState)
    (hf : ∀ st a st', f st a = Except.ok st' → stateCore st' = stateCore st) :
    ∀ (l : List α) (s s' : SolverState), foldE f s l = Except.ok s' →
      stateCore s' = stateCore s := by
  refine foldE_ok_induct f (fun a b => stateCore b = stateCore a) (fun _ => rfl) ?_ hf
  intro a b c hab hbc
  exact hbc.trans hab

lemma core_eraseFromCells (k : Constraint) (s s' : SolverState)
    (h : eraseFromCells k s = Except.ok s') : stateCore s' = stateCore s := by
  refine core_foldE _ ?_ _ s s' h
  intro st a st' hst
  by_cases hmem : k ∈ st.squareConstraints.getD a []
  · simp only [if_pos hmem] at hst
    cases hst
    rfl
  · simp only [if_neg hmem] at hst
    exact Except.noConfusion hst

lemma core_removeConstraint (k : Constraint) (s s' : SolverState)
    (h : removeConstraint k s = Except.ok s') : stateCore s' = stateCore s := by
  unfold removeConstraint at h
  split at h
  · split at h
    · have hh := core_eraseFromCells _ _ _ h
      exact hh
    · exact Except.noConfusion h
  · split at h
    · have hh := core_eraseFromCells _ _ _ h
      exact hh
    · exact Except.noConfusion h

lemma core_foldl_cells {α : Type} (f : SolverState → α → SolverState)
    (hf : ∀ st a, stateCore (f st a) = stateCore st) :
    ∀ (l : List α) (s : SolverState), stateCore (l.foldl f s) = stateCore s := by
  intro l
  induction l with
  | nil => intro s; rfl
  | cons a t ih =>
      intro s
      rw [List.foldl_cons]
      exact (ih (f s a)).trans (hf s a)

lemma core_insertIntoCells (c : Constraint) (s : SolverState) :
    stateCore (insertIntoCells c s) = stateCore s := by
  unfold insertIntoCells
  apply core_foldl_cells
  intro st a
  rfl

lemma core_addConstraintGo :
    ∀ (n : ℕ) (c : Constraint) (s s' : SolverState),
      addConstraintGo n c s = Except.ok s' → stateCore s' = stateCore s := by
  intro n
  induction n with
  | zero =>
      intro c s s' h
      exact Except.noConfusion h
  | succ d ih =>
      intro c s s' h
      rw [addConstraintGo] at h
      split at h
      · exact Except.noConfusion h
      · split at h
        · exact Except.noConfusion h
        · split at h
          · exact Except.noConfusion h
          · split at h
            · cases h; rfl
            · split at h
              · split at h
                · cases h; rfl
                · obtain ⟨s1, hr, h2⟩ := except_bind_ok _ _ _ h
                  exact (ih _ _ _ h2).trans (core_removeConstraint _ _ _ hr)
              · cases h
                refine (core_insertIntoCells _ _).trans ?_
                split <;> rfl

lemma core_addConstraint (c : Constraint) (s s' : SolverState)
    (h : addConstraint c s = Except.ok s') : stateCore s' = stateCore s :=
  core_addConstraintGo 2 c s s' h

lemma core_addAllCrosses (c : Constraint) (s s' : SolverState)
    (h : addAllCrosses c s = Except.ok s') : stateCore s' = stateCore s := by
  unfold addAllCrosses at h
  exact core_foldE _ (fun st a st' hst => core_addConstraint _ _ _ hst) _ s s' h

lemma core_addConstraintFromMineCount (bits : Finset ℕ) (s s' : SolverState)
    (h : addConstraintFromMineCount bits s = Except.ok s') :
    stateCore s' = stateCore s :=
  core_addConstraint _ _ _ h

lemma core_replenish (s s' : SolverState)
    (h : replenish s = Except.ok s') : stateCore s' = stateCore s := by
  unfold replenish at h
  obtain ⟨s1, hh, hn⟩ := except_bind_ok _ _ _ h
  have c1 : stateCore s1 = stateCore s :=
    core_foldE _ (fun st a st' hst => core_addConstraintFromMineCount _ _ _ hst) _ s s1 hh
  have c2 : stateCore s' = stateCore s1 :=
    core_foldE _ (fun st a st' hst => core_addConstraintFromMineCount _ _ _ hst) _ s1 s' hn
  exact c2.trans c1

lemma stateCore_base {s s' : SolverState} (h : stateCore s' = stateCore s) :
    s'.base = s.base := congrArg Prod.fst h

lemma stateCore_revealed {s s' : SolverState} (h : stateCore s' = stateCore s) :
    s'.revealed = s.revealed := congrArg (fun p => p.2.1) h

lemma stateCore_flagged {s s' : SolverState} (h : stateCore s' = stateCore s) :
    s'.flagged = s.flagged := congrArg (fun p => p.2.2) h

lemma revealSquare_ok (sq : ℕ) (s s' : SolverState)
    (h : revealSquare sq s = Except.ok s') :
    sq ∉ s.revealed ∧ sq ∉ s.base.mines ∧ s'.base = s.base ∧
      s'.revealed = insert sq s.revealed ∧ s'.flagged = s.flagged := by
  unfold revealSquare at h
  split at h
  · exact Except.noConfusion h
  next hnr =>
    split at h
    · exact Except.noConfusion h
    next hnm =>
      obtain ⟨s1, hf, hk⟩ := except_bind_ok _ _ _ h
      have hcore1 : stateCore s1 = stateCore s := by
        refine core_foldE _ ?_ _ s s1 hf
        intro st a st' hst
        unfold revealConstraintsStep at hst
        split at hst
        · exact Except.noConfusion hst
        · split at hst
          · exact Except.noConfusion hst
          · obtain ⟨stm, hr, ha⟩ := except_bind_ok _ _ _ hst
            exact (core_addConstraint _ _ _ ha).trans (core_removeConstraint _ _ _ hr)
      have hk' : (if sq ∉ ({ s1 with revealed := insert sq s1.revealed }).base.unknowns then
          addConstraint (getNeighborConstraint { s1 with revealed := insert sq s1.revealed } sq)
            { s1 with revealed := insert sq s1.revealed }
        else Except.ok { s1 with revealed := insert sq s1.revealed }) = Except.ok s' := hk
      have hcore2 : stateCore s' =
          stateCore { s1 with revealed := insert sq s1.revealed } := by
        split at hk'
        · exact core_addConstraint _ _ _ hk'
        · cases hk'; rfl
      have hb1 := stateCore_base hcore1
      have hr1 := stateCore_revealed hcore1
      have hf1 := stateCore_flagged hcore1
      have hb2 := stateCore_base hcore2
      have hr2 := stateCore_revealed hcore2
      have hf2 := stateCore_flagged hcore2
      refine ⟨hnr, hnm, ?_, ?_, ?_⟩
      · rw [hb2]; exact hb1
      · rw [hr2]; simp only []; rw [hr1]
      · rw [hf2]; exact hf1

lemma flagSquare_ok (sq : ℕ) (s s' : SolverState)
    (h : flagSquare sq s = Except.ok s') :
    sq ∉ s.flagged ∧ sq ∈ s.base.mines ∧ s'.base = s.base ∧
      s'.revealed = s.revealed ∧ s'.flagged = insert sq s.flagged := by
  unfold flagSquare at h
  split at h
  · exact Except.noConfusion h
  next hnf =>
    split at h
    next hm => exact Except.noConfusion h
    next hm =>
      have hm' : sq ∈ s.base.mines := by
        by_contra hc
        exact hm hc
      obtain ⟨s1, hf, hmap⟩ := except_map_ok _ _ _ h
      have hcore1 : stateCore s1 = stateCore s := by
        refine core_foldE _ ?_ _ s s1 hf
        intro st a st' hst
        unfold flagConstraintsStep at hst
        split at hst
        · exact Except.noConfusion hst
        · split at hst
          · exact Except.noConfusion hst
          · split at hst
            · exact Except.noConfusion hst
            · obtain ⟨stm, hr, ha⟩ := except_bind_ok _ _ _ hst
              exact (core_addConstraint _ _ _ ha).trans (core_removeConstraint _ _ _ hr)
      have hb1 := stateCore_base hcore1
      have hr1 := stateCore_revealed hcore1
      have hf1 := stateCore_flagged hcore1
      refine ⟨hnf, hm', ?_, ?_, ?_⟩
      · rw [← hmap]; exact hb1
      · rw [← hmap]; exact hr1
      · rw [← hmap]; simp only []; rw [hf1]

lemma stepPreserves_refl (s : SolverState) : StepPreserves s s :=
  ⟨id, Finset.Subset.refl _, Finset.Subset.refl _⟩

lemma stepPreserves_trans (a b c : SolverState)
    (h1 : StepPreserves a b) (h2 : StepPreserves b c) : StepPreserves a c :=
  ⟨fun h => h2.1 (h1.1 h), h1.2.1.trans h2.2.1, h1.2.2.trans h2.2.2⟩

lemma stepPreserves_of_core {s s' : SolverState}
    (h : stateCore s' = stateCore s) : StepPreserves s s' := by
  have hb := stateCore_base h
  have hr := stateCore_revealed h
  have hf := stateCore_flagged h
  refine ⟨?_, by rw [hr], by rw [hf]⟩
  intro hi
  unfold PuzzleInv at hi ⊢
  rw [hb, hr, hf]
  exact hi

lemma revealSquare_preserves (sq : ℕ) (s s' : SolverState)
    (h : revealSquare sq s = Except.ok s') : StepPreserves s s' := by
  obtain ⟨hnr, hnm, hb, hrv, hfl⟩ := revealSquare_ok sq s s' h
  refine ⟨?_, ?_, ?_⟩
  · rintro ⟨hdisj, hsub, hrm⟩
    have hnf : sq ∉ s.flagged := fun hin => hnm (hsub hin)
    refine ⟨?_, ?_, ?_⟩
    · rw [hrv, hfl, Finset.insert_inter_of_not_mem hnf]
      exact hdisj
    · rw [hfl, hb]
      exact hsub
    · rw [hrv, hb, Finset.insert_inter_of_not_mem hnm]
      exact hrm
  · rw [hrv]
    exact Finset.subset_insert _ _
  · rw [hfl]

lemma flagSquare_preserves (sq : ℕ) (s s' : SolverState)
    (h : flagSquare sq s = Except.ok s') : StepPreserves s s' := by
  obtain ⟨hnf, hm, hb, hrv, hfl⟩ := flagSquare_ok sq s s' h
  refine ⟨?_, ?_, ?_⟩
  · rintro ⟨hdisj, hsub, hrm⟩
    have hnr : sq ∉ s.revealed := fun hin => by
      have : sq ∈ s.revealed ∩ s.base.mines := Finset.mem_inter.mpr ⟨hin, hm⟩
      rw [hrm] at this
      exact absurd this (Finset.not_mem_empty sq)
    refine ⟨?_, ?_, ?_⟩
    · rw [hrv, hfl, Finset.inter_comm, Finset.insert_inter_of_not_mem hnr,
        Finset.inter_comm]
      exact hdisj
    · rw [hfl, hb]
      exact Finset.insert_subset hm hsub
    · rw [hrv, hb]
      exact hrm
  · rw [hrv]
  · rw [hfl]
    exact Finset.subset_insert _ _

lemma foldE_preserves {α : Type} (f : SolverState → α → Except Fail SolverState)
    (hf : ∀ st a st', f st a = Except.ok st' → StepPreserves st st') :
    ∀ (l : List α) (s s' : SolverState), foldE f s l = Except.ok s' →
      StepPreserves s s' :=
  foldE_ok_induct f StepPreserves stepPreserves_refl stepPreserves_trans hf

lemma drainSolved_preserves (s : SolverState) (r : StepResult) (s' : SolverState)
    (h : drainSolved s = Except.ok (r, s')) : StepPreserves s s' := by
  unfold drainSolved at h
  obtain ⟨acc, hp, h2⟩ := except_bind_ok _ _ _ h
  split at h2
  · exact Except.noConfusion h2
  · split at h2
    · exact Except.noConfusion h2
    · obtain ⟨s1, hf1, h3⟩ := except_bind_ok _ _ _ h2
      obtain ⟨s2, hf2, h4⟩ := except_bind_ok _ _ _ h3
      have p1 : StepPreserves s s1 :=
        foldE_preserves _ (fun st a st' hst => revealSquare_preserves _ _ _ hst) _ s s1 hf1
      have p2 : StepPreserves s1 s2 :=
        foldE_preserves _ (fun st a st' hst => flagSquare_preserves _ _ _ hst) _ s1 s2 hf2
      have hs2 : s2 = s' := by
        split at h4
        · cases h4; rfl
        · cases h4; rfl
      rw [← hs2]
      exact stepPreserves_trans _ _ _ p1 p2

lemma stepLoop_preserves :
    ∀ (fuel : ℕ) (s : SolverState) (r : StepResult) (s' : SolverState),
      stepLoop fuel s = Except.ok (r, s') → StepPreserves s s' := by
  intro fuel
  induction fuel with
  | zero =>
      intro s r s' h
      exact Except.noConfusion h
  | succ n ih =>
      intro s r s' h
      rw [stepLoop] at h
      split at h
      · split at h
        · have hmod := ih _ _ _ h
          exact stepPreserves_trans _ _ _ (stepPreserves_of_core rfl) hmod
        · obtain ⟨s2, ha, hmap⟩ := except_map_ok _ _ _ h
          have hcore := core_addAllCrosses _ _ _ ha
          have hs2 : s2 = s' := congrArg Prod.snd hmap
          rw [← hs2]
          exact stepPreserves_of_core hcore
      · obtain ⟨s1, hrep, h2⟩ := except_bind_ok _ _ _ h
        exact stepPreserves_trans _ _ _
          (stepPreserves_of_core (core_replenish _ _ hrep)) (ih _ _ _ h2)

/-- C7: every successful `Solver::step` preserves the puzzle-state
invariant — `revealed ∩ flagged = ∅`, `flagged ⊆ mines`, no revealed cell
is a mine — and both masks are monotonic (bits only flip 0 to 1, i.e. the
old masks are subsets of the new ones). -/
theorem step_preserves_invariants (fuel : ℕ) (s : SolverState) (r : StepResult)
    (s' : SolverState) (hInv : PuzzleInv s) (h : step fuel s = Except.ok (r, s')) :
    PuzzleInv s' ∧ s.revealed ⊆ s'.revealed ∧ s.flagged ⊆ s'.flagged := by
  unfold step at h
  split at h
  · have hp := stepLoop_preserves fuel s r s' h
    exact ⟨hp.1 hInv, hp.2⟩
  · have hp := drainSolved_preserves s r s' h
    exact ⟨hp.1 hInv, hp.2⟩

/-- Witness for `step_preserves_invariants`: draining `drainState` reveals
cell 0, returns Finished, and the invariant still holds afterwards. -/
theorem step_preserves_invariants_witness :
    PuzzleInv drainStateAfter ∧ drainState.revealed ⊆ drainStateAfter.revealed ∧
      drainState.flagged ⊆ drainStateAfter.flagged :=
  step_preserves_invariants 5 drainState StepResult.finished drainStateAfter
    (by decide) (by decide)

end Tametsi
